import Mathlib

/-!
Shallow embedding of the L1Beat backend TPS pipeline
(`services/tpsService.js` and `routes/updateRoutes.js`):
point validation, the retrying update orchestrator, series-store
upserts, and the network-wide aggregation functions, together with
proofs of the behavioural properties of those functions.

Numbers are modelled as exact rationals (`ℚ`); timestamps carried by
data points are rationals, reference times (`Math.floor(Date.now() / 1000)`)
are integers.
-/

namespace L1Beat

/-- Classification of a JSON string field by its JavaScript numeric parsing
behaviour, i.e. by what `Number(s)` and `parseFloat(s)` return on it. -/
inductive JsStr where
  /-- a complete numeric literal such as `"3.5"`: both `Number` and
  `parseFloat` yield `q` -/
  | numeric (q : ℚ)
  /-- a numeric prefix followed by junk such as `"3.5x"`: `Number` yields
  `NaN`, `parseFloat` yields `q` -/
  | numPrefix (q : ℚ)
  /-- the empty or all-whitespace string: `Number` yields `0`, `parseFloat`
  yields `NaN` -/
  | empty
  /-- a string with no leading numeric prefix such as `"bad"`: both yield
  `NaN` -/
  | bad
deriving DecidableEq, Repr

/-- A JSON field value as found in a raw provider data point. -/
inductive JsField where
  | num (q : ℚ)
  | str (s : JsStr)
  | undef
  | nullv
deriving DecidableEq, Repr

/-- JavaScript `Number(x)`; `none` models `NaN`.  `Number(undefined)` is
`NaN`, `Number(null)` is `0`, `Number("")` is `0`. -/
def jsNumber : JsField → Option ℚ
  | .num q => some q
  | .str (.numeric q) => some q
  | .str (.numPrefix _) => none
  | .str .empty => some 0
  | .str .bad => none
  | .undef => none
  | .nullv => some 0

/-- JavaScript `parseFloat(x)`; `none` models `NaN`.  `parseFloat` accepts a
numeric prefix, and yields `NaN` on `undefined`, `null` and `""`. -/
def jsParseFloat : JsField → Option ℚ
  | .num q => some q
  | .str (.numeric q) => some q
  | .str (.numPrefix q) => some q
  | .str .empty => none
  | .str .bad => none
  | .undef => none
  | .nullv => none

/-- A raw provider point, one element of `response.data.results`. -/
structure RawPoint where
  timestamp : JsField
  value : JsField
deriving DecidableEq, Repr

/-- The per-item validation predicate inside `TpsService.updateTpsData`:
`const timestamp = Number(item.timestamp); const value = parseFloat(item.value);
if (isNaN(timestamp) || isNaN(value)) return false;
return timestamp >= thirtyDaysAgo && timestamp <= currentTime;`
where `thirtyDaysAgo = currentTime - 30 * 24 * 60 * 60`. -/
def validPoint (now : ℤ) (item : RawPoint) : Bool :=
  match jsNumber item.timestamp, jsParseFloat item.value with
  | some timestamp, some _value =>
      decide ((now : ℚ) - 30 * 24 * 60 * 60 ≤ timestamp) && decide (timestamp ≤ (now : ℚ))
  | _, _ => false

/-- The point validator of `TpsService.updateTpsData`
(`validTpsData = response.data.results.filter(...)`), called `filterValid`
in the design document. -/
def filterValid (results : List RawPoint) (now : ℤ) : List RawPoint :=
  results.filter (validPoint now)

/-- A persisted TPS record (`models/tps`): key `(chainId, timestamp)`,
payload `value` and `lastUpdated`.  `value` is an `Option` because a stored
document may lack the field (read back as `null`/`undefined`). -/
structure TpsRecord where
  chainId : ℕ
  timestamp : ℚ
  value : Option ℚ
  lastUpdated : ℤ
deriving DecidableEq, Repr

/-- One `updateOne`-with-upsert operation of the `TPS.bulkWrite` call in
`updateTpsData`: filter `{chainId, timestamp}`, `$set {value, lastUpdated}`,
`upsert: true`. -/
structure UpsertOp where
  chainId : ℕ
  timestamp : ℚ
  value : ℚ
  lastUpdated : ℤ
deriving DecidableEq, Repr

/-- The operation list built by `updateTpsData` from the validated points:
`validTpsData.map(item => ({updateOne: {filter: {chainId, timestamp:
Number(item.timestamp)}, update: {$set: {value: parseFloat(item.value),
lastUpdated: new Date()}}, upsert: true}}))`.  The `getD 0` defaults are
unreachable for points that passed `validPoint`. -/
def toUpsertOps (chainId : ℕ) (nowMs : ℤ) (items : List RawPoint) : List UpsertOp :=
  items.map fun item =>
    { chainId := chainId
      timestamp := (jsNumber item.timestamp).getD 0
      value := (jsParseFloat item.value).getD 0
      lastUpdated := nowMs }

/-- Apply one upsert operation: update the first record matching the
`(chainId, timestamp)` filter with the `$set` payload, or append a new
record built from filter plus payload when none matches. -/
def upsertOne : List TpsRecord → UpsertOp → List TpsRecord
  | [], op => [{ chainId := op.chainId, timestamp := op.timestamp,
                 value := some op.value, lastUpdated := op.lastUpdated }]
  | r :: rs, op =>
      if r.chainId = op.chainId ∧ r.timestamp = op.timestamp then
        { r with value := some op.value, lastUpdated := op.lastUpdated } :: rs
      else
        r :: upsertOne rs op

/-- `TPS.bulkWrite(ops, {ordered: false})`: each operation applied
independently, modelled as a left fold over the operation list. -/
def bulkWrite (store : List TpsRecord) (ops : List UpsertOp) : List TpsRecord :=
  ops.foldl upsertOne store

/-- `parseFloat(total.toFixed(2))`: round to 2 decimal places.  On a tie
`Number.prototype.toFixed` picks the larger candidate. -/
def round2fixed (q : ℚ) : ℚ := (⌊q * 100 + 1 / 2⌋ : ℚ) / 100

/-- MongoDB `$round: ['$totalTps', 2]`: round to 2 decimal places, ties to
the even candidate. -/
def round2bank (q : ℚ) : ℚ :=
  let x := q * 100
  let n := ⌊x⌋
  let r :=
    if x - n < 1 / 2 then n
    else if 1 / 2 < x - n then n + 1
    else if n % 2 = 0 then n else n + 1
  (r : ℚ) / 100

/-- Decimal rendering of a natural number left-padded with zeros to width
`w`; used by the ISO-8601 date formatter. -/
def padNum (w : ℕ) (n : ℕ) : String :=
  let s := toString n
  String.mk (List.replicate (w - s.length) '0') ++ s

/-- Gregorian calendar date from a count of days since 1970-01-01
(civil-from-days algorithm); returns `(year, month, day)`. -/
def civilFromDays (z0 : ℤ) : ℤ × ℕ × ℕ :=
  let z := z0 + 719468
  let era := Int.fdiv z 146097
  let doe := (z - era * 146097).toNat
  let yoe := (doe - doe / 1460 + doe / 36524 - doe / 146096) / 365
  let doy := doe - (365 * yoe + yoe / 4 - yoe / 100)
  let mp := (5 * doy + 2) / 153
  let d := doy - (153 * mp + 2) / 5 + 1
  let m := if mp < 10 then mp + 3 else mp - 9
  let y := (yoe : ℤ) + era * 400 + (if m ≤ 2 then 1 else 0)
  (y, m, d)

/-- Year field of `Date.prototype.toISOString`: four digits for years
0..9999, otherwise a sign and six digits. -/
def isoYear (y : ℤ) : String :=
  if 0 ≤ y ∧ y ≤ 9999 then padNum 4 y.toNat
  else if y < 0 then "-" ++ padNum 6 (-y).toNat
  else "+" ++ padNum 6 y.toNat

/-- `new Date(ms).toISOString()` for an integer count of milliseconds since
the epoch. -/
def isoOfMillis (ms : ℤ) : String :=
  let days := Int.fdiv ms 86400000
  let msOfDay := (Int.emod ms 86400000).toNat
  let ymd := civilFromDays days
  let hh := msOfDay / 3600000
  let mi := msOfDay % 3600000 / 60000
  let ss := msOfDay % 60000 / 1000
  let mmm := msOfDay % 1000
  isoYear ymd.1 ++ "-" ++ padNum 2 ymd.2.1 ++ "-" ++ padNum 2 ymd.2.2 ++ "T" ++
    padNum 2 hh ++ ":" ++ padNum 2 mi ++ ":" ++ padNum 2 ss ++ "." ++ padNum 3 mmm ++ "Z"

/-- JavaScript `ToIntegerOrInfinity` on a finite rational: truncation toward
zero, as applied by `new Date(value)` to its millisecond argument. -/
def jsTrunc (q : ℚ) : ℤ := q.num / (q.den : ℤ)

/-- `new Date(timestamp * 1000).toISOString()` as used by
`getNetworkTpsHistory` to enrich each aggregation group. -/
def isoDate (t : ℚ) : String := isoOfMillis (jsTrunc (t * 1000))

/-- Observable outcome of one fetch attempt of `updateTpsData` against the
metrics endpoint, classified by which branch of the `try` body it drives:
an exception from `axios.get` (`throws`), a falsy `response.data`
(`noBody`), a `response.data.results` that is not an array (`badShape`), a
well-shaped response (`ok`), or a well-shaped response followed by an
exception from `TPS.bulkWrite` (`okWriteThrows`). -/
inductive FetchResult where
  | throws
  | noBody
  | badShape
  | ok (results : List RawPoint)
  | okWriteThrows (results : List RawPoint)
deriving DecidableEq, Repr

/-- Terminal status of one `updateTpsData` call.  In the JavaScript source
`applied` is the returned `bulkWrite` result object, while both `noData`
(line `return null` after the empty-filter check) and `failed` (the
`return null` of the final catch and of loop exit) are `null`. -/
inductive UpdateOutcome where
  | applied
  | noData
  | failed
deriving DecidableEq, Repr

/-- Trace of one `updateTpsData` call: its outcome, the store after the
call, how many fetch attempts were performed, and the backoff sleeps (in
milliseconds, in order) that occurred. -/
structure UpdateRun where
  outcome : UpdateOutcome
  store : List TpsRecord
  fetches : ℕ
  sleeps : List ℕ
deriving DecidableEq, Repr

/-- The `try` body of one attempt of `updateTpsData`.  `Except.error`
models an exception reaching the surrounding `catch`; `.ok none` models
the two `continue` statements (no body / invalid format); `.ok (some _)`
models a `return` with the outcome and resulting store. -/
def attemptBody (chainId : ℕ) (now nowMs : ℤ) (store : List TpsRecord) :
    FetchResult → Except Unit (Option (UpdateOutcome × List TpsRecord))
  | .throws => .error ()
  | .noBody => .ok none
  | .badShape => .ok none
  | .ok results =>
      let validTpsData := filterValid results now
      if 0 < validTpsData.length then
        .ok (some (.applied, bulkWrite store (toUpsertOps chainId nowMs validTpsData)))
      else
        .ok (some (.noData, store))
  | .okWriteThrows results =>
      let validTpsData := filterValid results now
      if 0 < validTpsData.length then .error ()
      else .ok (some (.noData, store))

/-- The attempt loop of `updateTpsData`
(`for (let attempt = 1; attempt <= retryCount; attempt++)`), with the
catch block's `if (attempt === retryCount) return null;` and linear
backoff `setTimeout(..., attempt * 2000)`.  `fuel` counts the remaining
loop iterations (`retryCount + 1 - attempt`); exhausting it models normal
loop exit and the trailing `return null`.  `env attempt` is what the
external world does on that attempt. -/
def updateLoop (env : ℕ → FetchResult) (chainId : ℕ) (now nowMs : ℤ) (retryCount : ℕ) :
    ℕ → ℕ → List TpsRecord → ℕ → List ℕ → Except Unit UpdateRun
  | 0, _, store, fetches, sleeps =>
      .ok { outcome := .failed, store := store, fetches := fetches, sleeps := sleeps }
  | fuel + 1, attempt, store, fetches, sleeps =>
      match attemptBody chainId now nowMs store (env attempt) with
      | .ok (some (outcome, store2)) =>
          .ok { outcome := outcome, store := store2, fetches := fetches + 1, sleeps := sleeps }
      | .ok none =>
          updateLoop env chainId now nowMs retryCount fuel (attempt + 1) store (fetches + 1) sleeps
      | .error _ =>
          if attempt = retryCount then
            .ok { outcome := .failed, store := store, fetches := fetches + 1, sleeps := sleeps }
          else
            updateLoop env chainId now nowMs retryCount fuel (attempt + 1) store (fetches + 1)
              (sleeps ++ [attempt * 2000])

/-- `TpsService.updateTpsData(chainId, retryCount)`.  The result is an
`Except` so that an exception escaping to the caller would be visible as
`.error`; the theorems below show it never is. -/
def updateTpsData (env : ℕ → FetchResult) (chainId : ℕ) (now nowMs : ℤ)
    (store : List TpsRecord) (retryCount : ℕ) : Except Unit UpdateRun :=
  updateLoop env chainId now nowMs retryCount retryCount 1 store 0 []

/-- `findOne(...).sort({timestamp: -1})` over a pre-filtered record list:
the first record carrying the maximal timestamp. -/
def pickLatest (records : List TpsRecord) : Option TpsRecord :=
  records.foldl
    (fun best r =>
      match best with
      | none => some r
      | some b => if b.timestamp < r.timestamp then some r else some b)
    none

/-- `TPS.findOne({chainId}).sort({timestamp: -1})`: the chain's latest
record, with no time bound. -/
def latestForChain (store : List TpsRecord) (chainId : ℕ) : Option TpsRecord :=
  pickLatest (store.filter fun r => decide (r.chainId = chainId))

/-- `TPS.findOne({chainId, timestamp: {$gte: lb, $lte: ub}}).sort({timestamp: -1})`
as issued per chain by `getNetworkTps`. -/
def latestWithin (store : List TpsRecord) (chainId : ℕ) (lb ub : ℚ) : Option TpsRecord :=
  pickLatest (store.filter fun r =>
    decide (r.chainId = chainId) && decide (lb ≤ r.timestamp) && decide (r.timestamp ≤ ub))

/-- Unwrap the `Except` returned by `updateTpsData`.  The `.error` branch
is dead code (`updateTpsData` never raises); it is given an arbitrary
failed run so the model stays total. -/
def runOf (result : Except Unit UpdateRun) (store : List TpsRecord) : UpdateRun :=
  match result with
  | .ok r => r
  | .error _ => { outcome := .failed, store := store, fetches := 0, sleeps := [] }

/-- `TpsService.getLatestTps(chainId)`: read the latest record; on a miss,
run one `updateTpsData` (fill-on-miss, with its own attempt environment)
and re-read.  Returns the response and the store afterwards. -/
def getLatestTps (env : ℕ → FetchResult) (chainId : ℕ) (now nowMs : ℤ)
    (store : List TpsRecord) : Option TpsRecord × List TpsRecord :=
  match latestForChain store chainId with
  | some latest => (some latest, store)
  | none =>
      let run := runOf (updateTpsData env chainId now nowMs store 3) store
      (latestForChain run.store chainId, run.store)

/-- Body of the JSON response of `POST /update/chain/:chainId/tps`
restricted to the fields the claims mention. -/
structure RouteResponse where
  success : Bool
  latestTps : Option TpsRecord
deriving DecidableEq, Repr

/-- The `POST /update/chain/:chainId/tps` handler of `updateRoutes.js`:
`await tpsService.updateTpsData(chainId); const latestTps = await
tpsService.getLatestTps(chainId); res.json({success: true, chainId,
latestTps})`.  The handler's catch (responding 500 with `success: false`)
is unreachable in this model because neither call raises; the store itself
is assumed reachable. -/
def updateChainTpsRoute (env envRead : ℕ → FetchResult) (chainId : ℕ) (now nowMs : ℤ)
    (store : List TpsRecord) : RouteResponse :=
  let run := runOf (updateTpsData env chainId now nowMs store 3) store
  let read := getLatestTps envRead chainId now nowMs run.store
  { success := true, latestTps := read.fst }

/-- The snapshot returned by `TpsService.getNetworkTps`, restricted to its
computed numeric fields (`updatedAt`/`lastUpdate`/`dataAgeUnit` are
presentation strings derived from the same data). -/
structure NetworkTpsSnapshot where
  totalTps : ℚ
  chainCount : ℕ
  timestamp : ℚ
  dataAge : ℤ
deriving DecidableEq, Repr

/-- `Math.max(...timestamps)` over a list known to be nonempty at the call
site; defined as `0` on `[]` to stay total. -/
def listMax : List ℚ → ℚ
  | [] => 0
  | x :: xs => xs.foldl max x

/-- `TpsService.getNetworkTps()`: per chain, fetch the latest record in the
window `[now - 86400, now]`, re-validate the bounds (defensive double
check), then either return the zeroed snapshot or sum `value || 0`,
take the maximal timestamp and the data age in minutes floored at 0. -/
def getNetworkTps (chains : List ℕ) (store : List TpsRecord) (now : ℤ) :
    NetworkTpsSnapshot :=
  let currentTime : ℚ := (now : ℚ)
  let oneDayAgo : ℚ := currentTime - 24 * 60 * 60
  let tpsResults := chains.map fun c => latestWithin store c oneDayAgo currentTime
  let validResults := (tpsResults.filterMap id).filter fun r =>
    decide (oneDayAgo ≤ r.timestamp) && decide (r.timestamp ≤ currentTime)
  if validResults.isEmpty then
    { totalTps := 0, chainCount := 0, timestamp := currentTime, dataAge := 0 }
  else
    let total := validResults.foldl (fun sum r => sum + r.value.getD 0) 0
    let latestTimestamp := listMax (validResults.map fun r => r.timestamp)
    let dataAge := max 0 ⌊(currentTime - latestTimestamp) / 60⌋
    { totalTps := round2fixed total
      chainCount := validResults.length
      timestamp := latestTimestamp
      dataAge := dataAge }

/-- One element of the `getNetworkTpsHistory` result: an aggregation group
(`_id: '$timestamp'`, `totalTps: {$sum: '$value'}` rounded,
`chainCount: {$sum: 1}`) enriched with the ISO date string. -/
structure NetworkHistoryPoint where
  timestamp : ℚ
  totalTps : ℚ
  chainCount : ℕ
  date : String
deriving DecidableEq, Repr

/-- Insert a key into an ascending-sorted list of group keys. -/
def sortedInsert (x : ℚ) : List ℚ → List ℚ
  | [] => [x]
  | y :: ys => if x ≤ y then x :: y :: ys else y :: sortedInsert x ys

/-- The `$sort: {timestamp: 1}` stage: ascending insertion sort of the
group keys. -/
def sortAsc (l : List ℚ) : List ℚ := l.foldr sortedInsert []

/-- The `$match` stage of the aggregation in `getNetworkTpsHistory`:
`chainId: {$in: chains}, timestamp: {$gte: cutoffDate}`. -/
def matchingRecords (chains : List ℕ) (store : List TpsRecord) (cutoffDate : ℚ) :
    List TpsRecord :=
  store.filter fun r => chains.contains r.chainId && decide (cutoffDate ≤ r.timestamp)

/-- `TpsService.getNetworkTpsHistory(days)`: match records of the known
chains since `now - days*86400`, group by exact timestamp summing `value`
(`$sum` treats a missing/null `value` as contributing nothing) and
counting records, round to 2 decimals, sort ascending by timestamp, and
attach the ISO date. -/
def getNetworkTpsHistory (chains : List ℕ) (store : List TpsRecord) (now : ℤ)
    (days : ℕ) : List NetworkHistoryPoint :=
  let cutoffDate : ℚ := (now : ℚ) - days * 24 * 60 * 60
  let matching := matchingRecords chains store cutoffDate
  let groups := sortAsc (matching.map fun r => r.timestamp).dedup
  groups.map fun t =>
    let grp := matching.filter fun r => decide (r.timestamp = t)
    { timestamp := t
      totalTps := round2bank ((grp.map fun r => r.value.getD 0).sum)
      chainCount := grp.length
      date := isoDate t }

/-! ### Point validator (claim C1) -/

lemma validPoint_true_iff (now : ℤ) (p : RawPoint) :
    validPoint now p = true ↔
      ∃ ts v, jsNumber p.timestamp = some ts ∧ jsParseFloat p.value = some v ∧
        (now : ℚ) - 30 * 86400 ≤ ts ∧ ts ≤ (now : ℚ) := by
  cases h1 : jsNumber p.timestamp with
  | none => simp [validPoint, h1]
  | some ts =>
    cases h2 : jsParseFloat p.value with
    | none => simp [validPoint, h1, h2]
    | some v =>
      simp only [validPoint, h1, h2, Bool.and_eq_true, decide_eq_true_eq,
        Option.some.injEq]
      constructor
      · rintro ⟨ha, hb⟩
        exact ⟨ts, v, rfl, rfl, by linarith, hb⟩
      · rintro ⟨ts2, v2, hts, _hv, ha, hb⟩
        cases hts
        exact ⟨by linarith, hb⟩

/-- Claim C1: `filterValid` returns an order-preserving sublist of its
input containing exactly the points whose timestamp (via `Number`) and
value (via `parseFloat`) both parse, with the parsed timestamp inside the
inclusive window `[now - 30*86400, now]`; on the concrete raw points
`[{timestamp: now-10, value: "3.5"}, {timestamp: now-40*86400, value: 2},
{timestamp: "bad", value: 1}]` it keeps exactly the first point, whose
parsed reading — and the upsert record built from it — is
`{timestamp: now-10, value: 3.5}`. -/
theorem filterValid_sublist_window (results : List RawPoint) (now : ℤ) :
    List.Sublist (filterValid results now) results ∧
    (∀ p, p ∈ filterValid results now ↔ p ∈ results ∧
      ∃ ts v, jsNumber p.timestamp = some ts ∧ jsParseFloat p.value = some v ∧
        (now : ℚ) - 30 * 86400 ≤ ts ∧ ts ≤ (now : ℚ)) ∧
    (∀ (n : ℤ) (chainId : ℕ) (nowMs : ℤ),
      filterValid [⟨.num ((n : ℚ) - 10), .str (.numeric 3.5)⟩,
          ⟨.num ((n : ℚ) - 40 * 86400), .num 2⟩,
          ⟨.str .bad, .num 1⟩] n =
        [⟨.num ((n : ℚ) - 10), .str (.numeric 3.5)⟩] ∧
      toUpsertOps chainId nowMs
          (filterValid [⟨.num ((n : ℚ) - 10), .str (.numeric 3.5)⟩,
            ⟨.num ((n : ℚ) - 40 * 86400), .num 2⟩,
            ⟨.str .bad, .num 1⟩] n) =
        [⟨chainId, (n : ℚ) - 10, 3.5, nowMs⟩]) := by
  refine ⟨List.filter_sublist _, ?_, ?_⟩
  · intro p
    rw [filterValid, List.mem_filter, validPoint_true_iff]
  · intro n chainId nowMs
    have hfil : filterValid [⟨.num ((n : ℚ) - 10), .str (.numeric 3.5)⟩,
        ⟨.num ((n : ℚ) - 40 * 86400), .num 2⟩,
        ⟨.str .bad, .num 1⟩] n =
        [⟨.num ((n : ℚ) - 10), .str (.numeric 3.5)⟩] := by
      have h1 : (n : ℚ) - 30 * 24 * 60 * 60 ≤ (n : ℚ) - 10 := by linarith
      have h2 : (n : ℚ) - 10 ≤ (n : ℚ) := by linarith
      have h3 : ¬((n : ℚ) - 30 * 24 * 60 * 60 ≤ (n : ℚ) - 40 * 86400) := by linarith
      simp [filterValid, validPoint, jsNumber, jsParseFloat, List.filter, h1, h2, h3]
    refine ⟨hfil, ?_⟩
    rw [hfil]
    simp [toUpsertOps, jsNumber, jsParseFloat]

/-! ### Series-store upserts (claim C5) -/

/-- Number of records in the store carrying the key `(chainId, timestamp)`. -/
def countKey (store : List TpsRecord) (chainId : ℕ) (timestamp : ℚ) : ℕ :=
  (store.filter fun r => decide (r.chainId = chainId ∧ r.timestamp = timestamp)).length

/-- The store invariant: at most one record per `(chainId, timestamp)` pair. -/
def KeyUnique (store : List TpsRecord) : Prop :=
  List.Pairwise (fun a b => ¬(a.chainId = b.chainId ∧ a.timestamp = b.timestamp)) store

lemma mem_upsertOne (store : List TpsRecord) (op : UpsertOp) (r : TpsRecord)
    (h : r ∈ upsertOne store op) :
    (∃ y ∈ store, r.chainId = y.chainId ∧ r.timestamp = y.timestamp) ∨
      (r.chainId = op.chainId ∧ r.timestamp = op.timestamp) := by
  induction store with
  | nil =>
    simp only [upsertOne, List.mem_singleton] at h
    subst h
    exact Or.inr ⟨rfl, rfl⟩
  | cons x xs ih =>
    rw [upsertOne] at h
    split at h
    · rcases List.mem_cons.mp h with h | h
      · subst h
        exact Or.inl ⟨x, List.mem_cons_self _ _, rfl, rfl⟩
      · exact Or.inl ⟨r, List.mem_cons_of_mem _ h, rfl, rfl⟩
    · rcases List.mem_cons.mp h with h | h
      · subst h
        exact Or.inl ⟨r, List.mem_cons_self _ _, rfl, rfl⟩
      · rcases ih h with ⟨y, hy, hk⟩ | hk
        · exact Or.inl ⟨y, List.mem_cons_of_mem _ hy, hk⟩
        · exact Or.inr hk

lemma keyUnique_upsertOne (store : List TpsRecord) (op : UpsertOp)
    (h : KeyUnique store) : KeyUnique (upsertOne store op) := by
  induction store with
  | nil => exact List.pairwise_singleton _ _
  | cons x xs ih =>
    rcases List.pairwise_cons.mp h with ⟨hx, hxs⟩
    rw [upsertOne]
    split
    · rename_i hmatch
      refine List.pairwise_cons.mpr ⟨?_, hxs⟩
      intro b hb hk
      exact hx b hb ⟨hmatch.1 ▸ hk.1, hmatch.2 ▸ hk.2⟩
    · rename_i hmatch
      refine List.pairwise_cons.mpr ⟨?_, ih hxs⟩
      intro b hb hk
      rcases mem_upsertOne xs op b hb with ⟨y, hy, hky⟩ | hky
      · exact hx y hy ⟨hk.1.trans hky.1, hk.2.trans hky.2⟩
      · exact hmatch ⟨hk.1.trans hky.1, hk.2.trans hky.2⟩

lemma countKey_upsertOne (store : List TpsRecord) (op : UpsertOp)
    (h : KeyUnique store) :
    countKey (upsertOne store op) op.chainId op.timestamp = 1 := by
  induction store with
  | nil => simp [upsertOne, countKey]
  | cons x xs ih =>
    rcases List.pairwise_cons.mp h with ⟨hx, hxs⟩
    rw [upsertOne]
    split
    · rename_i hmatch
      have hnone : ∀ b ∈ xs, ¬(b.chainId = op.chainId ∧ b.timestamp = op.timestamp) := by
        intro b hb hk
        exact hx b hb ⟨hmatch.1.trans hk.1.symm, hmatch.2.trans hk.2.symm⟩
      have hfil : xs.filter
          (fun r => decide (r.chainId = op.chainId ∧ r.timestamp = op.timestamp)) = [] := by
        rw [List.filter_eq_nil_iff]
        intro b hb
        simp only [decide_eq_true_eq]
        exact hnone b hb
      simp only [countKey, List.filter_cons]
      rw [if_pos (by simp [hmatch.1, hmatch.2]), hfil]
      rfl
    · rename_i hmatch
      have hrec := ih hxs
      simp only [countKey, List.filter_cons] at hrec ⊢
      rw [if_neg (by simp [hmatch])]
      exact hrec

lemma length_upsertOne_of_match (store : List TpsRecord) (op : UpsertOp)
    (h : 1 ≤ countKey store op.chainId op.timestamp) :
    (upsertOne store op).length = store.length := by
  induction store with
  | nil => simp [countKey] at h
  | cons x xs ih =>
    rw [upsertOne]
    split
    · simp
    · rename_i hmatch
      simp only [countKey, List.filter_cons] at h
      rw [if_neg (by simp [hmatch])] at h
      simp only [List.length_cons]
      rw [ih h]

lemma upsertOne_updated (store : List TpsRecord) (op : UpsertOp)
    (h : KeyUnique store) :
    ∀ r ∈ upsertOne store op,
      r.chainId = op.chainId ∧ r.timestamp = op.timestamp →
      r.value = some op.value ∧ r.lastUpdated = op.lastUpdated := by
  induction store with
  | nil =>
    intro r hr _hk
    simp only [upsertOne, List.mem_singleton] at hr
    subst hr
    exact ⟨rfl, rfl⟩
  | cons x xs ih =>
    rcases List.pairwise_cons.mp h with ⟨hx, hxs⟩
    intro r hr hk
    rw [upsertOne] at hr
    split at hr
    · rename_i hmatch
      rcases List.mem_cons.mp hr with hr | hr
      · subst hr
        exact ⟨rfl, rfl⟩
      · exact absurd ⟨hmatch.1.trans hk.1.symm, hmatch.2.trans hk.2.symm⟩ (hx r hr)
    · rename_i hmatch
      rcases List.mem_cons.mp hr with hr | hr
      · subst hr
        exact absurd hk hmatch
      · exact ih hxs r hr hk

lemma exists_key_of_countKey_pos (store : List TpsRecord) (c : ℕ) (t : ℚ)
    (h : 1 ≤ countKey store c t) :
    ∃ r ∈ store, r.chainId = c ∧ r.timestamp = t := by
  have hpos : 0 < (store.filter fun r => decide (r.chainId = c ∧ r.timestamp = t)).length := h
  rcases List.exists_mem_of_length_pos hpos with ⟨r, hr⟩
  rcases List.mem_filter.mp hr with ⟨hmem, hp⟩
  exact ⟨r, hmem, by simpa using hp⟩

/-- Claim C5: upserting the same `(chainId, timestamp)` key twice leaves
exactly one record with that key; the second write updates `value` and
`lastUpdated` in place without creating a duplicate; and every write
preserves the at-most-one-record-per-key invariant. -/
theorem upsert_idempotent_keyUnique (store : List TpsRecord) (op op2 : UpsertOp)
    (hu : KeyUnique store) (hc : op2.chainId = op.chainId)
    (ht : op2.timestamp = op.timestamp) :
    countKey (upsertOne store op) op.chainId op.timestamp = 1 ∧
    countKey (upsertOne (upsertOne store op) op2) op.chainId op.timestamp = 1 ∧
    (upsertOne (upsertOne store op) op2).length = (upsertOne store op).length ∧
    (∃ r ∈ upsertOne (upsertOne store op) op2,
      r.chainId = op.chainId ∧ r.timestamp = op.timestamp ∧
      r.value = some op2.value ∧ r.lastUpdated = op2.lastUpdated) ∧
    KeyUnique (upsertOne (upsertOne store op) op2) ∧
    (∀ (s : List TpsRecord) (o : UpsertOp), KeyUnique s → KeyUnique (upsertOne s o)) := by
  have h1 := countKey_upsertOne store op hu
  have hu1 : KeyUnique (upsertOne store op) := keyUnique_upsertOne store op hu
  have h2 : countKey (upsertOne (upsertOne store op) op2) op.chainId op.timestamp = 1 := by
    have := countKey_upsertOne (upsertOne store op) op2 hu1
    rwa [hc, ht] at this
  refine ⟨h1, h2, ?_, ?_, ?_, fun s o hs => keyUnique_upsertOne s o hs⟩
  · apply length_upsertOne_of_match
    rw [hc, ht, h1]
  · rcases exists_key_of_countKey_pos _ op.chainId op.timestamp (by rw [h2]) with
      ⟨r, hr, hrc, hrt⟩
    have := upsertOne_updated (upsertOne store op) op2 hu1 r hr
      ⟨hrc.trans hc.symm, hrt.trans ht.symm⟩
    exact ⟨r, hr, hrc, hrt, this.1, this.2⟩
  · exact keyUnique_upsertOne _ op2 hu1

/-- Witness for `upsert_idempotent_keyUnique` at a concrete store and
operations. -/
theorem upsert_idempotent_keyUnique_witness :
    countKey (upsertOne (upsertOne [] ⟨1, 100, 5, 10⟩) ⟨1, 100, 7, 20⟩) 1 100 = 1 ∧
    (upsertOne (upsertOne [] ⟨1, 100, 5, 10⟩) ⟨1, 100, 7, 20⟩).length =
      (upsertOne [] ⟨1, 100, 5, 10⟩).length := by
  have h := upsert_idempotent_keyUnique [] ⟨1, 100, 5, 10⟩ ⟨1, 100, 7, 20⟩
    List.Pairwise.nil rfl rfl
  exact ⟨h.2.1, h.2.2.1⟩

/-! ### Update orchestrator (claims C2, C7, C8, C9) -/

/-- `true` when the attempt's `try` body raises an exception reaching the
`catch` block — a fetch exception, or a `bulkWrite` exception (which
requires a nonempty validated list, otherwise no write happens). -/
def hardFail (now : ℤ) : FetchResult → Bool
  | .throws => true
  | .okWriteThrows results => decide (0 < (filterValid results now).length)
  | _ => false

/-- `true` exactly on a fetch exception. -/
def isThrows : FetchResult → Bool
  | .throws => true
  | _ => false

lemma attemptBody_throws (chainId : ℕ) (now nowMs : ℤ) (store : List TpsRecord) :
    attemptBody chainId now nowMs store .throws = .error () := rfl

lemma updateLoop_term (env : ℕ → FetchResult) (chainId : ℕ) (now nowMs : ℤ)
    (n fuel attempt fetches : ℕ) (sleeps : List ℕ) (store store2 : List TpsRecord)
    (outcome : UpdateOutcome)
    (hbody : attemptBody chainId now nowMs store (env attempt) = .ok (some (outcome, store2))) :
    updateLoop env chainId now nowMs n (fuel + 1) attempt store fetches sleeps =
      .ok ⟨outcome, store2, fetches + 1, sleeps⟩ := by
  rw [updateLoop, hbody]

lemma updateLoop_step_cont (env : ℕ → FetchResult) (chainId : ℕ) (now nowMs : ℤ)
    (n fuel attempt fetches : ℕ) (sleeps : List ℕ) (store : List TpsRecord)
    (hbody : attemptBody chainId now nowMs store (env attempt) = .ok none) :
    updateLoop env chainId now nowMs n (fuel + 1) attempt store fetches sleeps =
      updateLoop env chainId now nowMs n fuel (attempt + 1) store (fetches + 1) sleeps := by
  rw [updateLoop, hbody]

lemma updateLoop_step_error (env : ℕ → FetchResult) (chainId : ℕ) (now nowMs : ℤ)
    (n fuel attempt fetches : ℕ) (sleeps : List ℕ) (store : List TpsRecord)
    (hbody : attemptBody chainId now nowMs store (env attempt) = .error ())
    (hne : attempt ≠ n) :
    updateLoop env chainId now nowMs n (fuel + 1) attempt store fetches sleeps =
      updateLoop env chainId now nowMs n fuel (attempt + 1) store (fetches + 1)
        (sleeps ++ [attempt * 2000]) := by
  rw [updateLoop, hbody]
  simp [hne]

lemma updateLoop_last_error (env : ℕ → FetchResult) (chainId : ℕ) (now nowMs : ℤ)
    (n fuel fetches : ℕ) (sleeps : List ℕ) (store : List TpsRecord)
    (hbody : attemptBody chainId now nowMs store (env n) = .error ()) :
    updateLoop env chainId now nowMs n (fuel + 1) n store fetches sleeps =
      .ok ⟨.failed, store, fetches + 1, sleeps⟩ := by
  rw [updateLoop, hbody]
  simp

lemma updateLoop_shift (env : ℕ → FetchResult) (chainId : ℕ) (now nowMs : ℤ) (n : ℕ) :
    ∀ (k fuel attempt fetches : ℕ) (sleeps : List ℕ) (store : List TpsRecord),
      k ≤ fuel → attempt + k ≤ n →
      (∀ b, attempt ≤ b → b < attempt + k →
        env b = .throws ∨ env b = .noBody ∨ env b = .badShape) →
      updateLoop env chainId now nowMs n fuel attempt store fetches sleeps =
        updateLoop env chainId now nowMs n (fuel - k) (attempt + k) store (fetches + k)
          (sleeps ++ (((List.range' attempt k).filter fun b => isThrows (env b)).map
            fun b => b * 2000)) := by
  intro k
  induction k with
  | zero => intro fuel attempt fetches sleeps store _ _ _; simp
  | succ k ih =>
    intro fuel attempt fetches sleeps store hk hle hpre
    obtain ⟨fuel2, rfl⟩ : ∃ m, fuel = m + 1 := ⟨fuel - 1, by omega⟩
    have hstep := hpre attempt (le_refl _) (by omega)
    have hrange : List.range' attempt (k + 1) = attempt :: List.range' (attempt + 1) k :=
      List.range'_succ attempt k 1
    rcases hstep with hstep | hstep | hstep
    · rw [updateLoop_step_error env chainId now nowMs n fuel2 attempt fetches sleeps store
        (by rw [hstep]; rfl) (by omega)]
      rw [ih fuel2 (attempt + 1) (fetches + 1) (sleeps ++ [attempt * 2000]) store
        (by omega) (by omega) (fun b hb1 hb2 => hpre b (by omega) (by omega))]
      rw [hrange]
      simp only [List.filter_cons, isThrows, hstep, List.map_cons, List.append_assoc,
        List.singleton_append]
      have e1 : fuel2 - k = fuel2 + 1 - (k + 1) := by omega
      have e2 : attempt + 1 + k = attempt + (k + 1) := by omega
      have e3 : fetches + 1 + k = fetches + (k + 1) := by omega
      rw [e1, e2, e3]
      simp
    · rw [updateLoop_step_cont env chainId now nowMs n fuel2 attempt fetches sleeps store
        (by rw [hstep]; rfl)]
      rw [ih fuel2 (attempt + 1) (fetches + 1) sleeps store
        (by omega) (by omega) (fun b hb1 hb2 => hpre b (by omega) (by omega))]
      rw [hrange]
      simp only [List.filter_cons, isThrows, hstep, List.map_cons]
      have e1 : fuel2 - k = fuel2 + 1 - (k + 1) := by omega
      have e2 : attempt + 1 + k = attempt + (k + 1) := by omega
      have e3 : fetches + 1 + k = fetches + (k + 1) := by omega
      rw [e1, e2, e3]
      simp
    · rw [updateLoop_step_cont env chainId now nowMs n fuel2 attempt fetches sleeps store
        (by rw [hstep]; rfl)]
      rw [ih fuel2 (attempt + 1) (fetches + 1) sleeps store
        (by omega) (by omega) (fun b hb1 hb2 => hpre b (by omega) (by omega))]
      rw [hrange]
      simp only [List.filter_cons, isThrows, hstep, List.map_cons]
      have e1 : fuel2 - k = fuel2 + 1 - (k + 1) := by omega
      have e2 : attempt + 1 + k = attempt + (k + 1) := by omega
      have e3 : fetches + 1 + k = fetches + (k + 1) := by omega
      rw [e1, e2, e3]
      simp

/-- Full characterization of a loop run: it never raises, executes
`k ≥ 1` attempts (when fuel remains), sleeps exactly after the non-final
attempts whose `try` body raised, and if the final executed attempt
raised then the run ends failed at attempt `n`. -/
lemma updateLoop_char (env : ℕ → FetchResult) (chainId : ℕ) (now nowMs : ℤ) (n : ℕ) :
    ∀ (fuel attempt fetches : ℕ) (sleeps : List ℕ) (store : List TpsRecord),
      attempt + fuel = n + 1 → 1 ≤ attempt →
      ∃ (k : ℕ) (r : UpdateRun),
        updateLoop env chainId now nowMs n fuel attempt store fetches sleeps = .ok r ∧
        k ≤ fuel ∧ (1 ≤ fuel → 1 ≤ k) ∧
        r.fetches = fetches + k ∧
        r.sleeps = sleeps ++ (((List.range' attempt (k - 1)).filter fun b =>
          hardFail now (env b)).map fun b => b * 2000) ∧
        (1 ≤ k → hardFail now (env (attempt + k - 1)) = true →
          r.outcome = .failed ∧ attempt + k - 1 = n) := by
  intro fuel
  induction fuel with
  | zero =>
    intro attempt fetches sleeps store hlink h1
    exact ⟨0, ⟨.failed, store, fetches, sleeps⟩, rfl, le_refl 0, by omega, by simp,
      by simp, by omega⟩
  | succ fuel ih =>
    intro attempt fetches sleeps store hlink h1
    cases henv : env attempt with
    | throws =>
      by_cases ha : attempt = n
      · refine ⟨1, ⟨.failed, store, fetches + 1, sleeps⟩, ?_, by omega, by omega, rfl,
          by simp, fun _ _ => ⟨rfl, by omega⟩⟩
        subst ha
        exact updateLoop_last_error env chainId now nowMs attempt fuel fetches sleeps store
          (by rw [henv]; rfl)
      · rcases ih (attempt + 1) (fetches + 1) (sleeps ++ [attempt * 2000]) store
          (by omega) (by omega) with ⟨k, r, heq, hk, hk1, hf, hs, hterm⟩
        have hfuel1 : 1 ≤ fuel := by omega
        have hk1' : 1 ≤ k := hk1 hfuel1
        refine ⟨k + 1, r, ?_, by omega, fun _ => by omega, by omega, ?_, ?_⟩
        · rw [updateLoop_step_error env chainId now nowMs n fuel attempt fetches sleeps store
            (by rw [henv]; rfl) ha]
          exact heq
        · have hp : hardFail now (env attempt) = true := by rw [henv]; rfl
          rw [hs]
          have hrange : List.range' attempt (k + 1 - 1) =
              attempt :: List.range' (attempt + 1) (k - 1) := by
            have e : k + 1 - 1 = (k - 1) + 1 := by omega
            rw [e]
            exact List.range'_succ attempt (k - 1) 1
          rw [hrange]
          simp [List.filter_cons, hp]
        · intro _ hh
          have e : attempt + (k + 1) - 1 = attempt + 1 + k - 1 := by omega
          rw [e] at hh ⊢
          rcases hterm hk1' hh with ⟨ho, he⟩
          exact ⟨ho, he⟩
    | noBody =>
      rcases ih (attempt + 1) (fetches + 1) sleeps store (by omega) (by omega) with
        ⟨k, r, heq, hk, hk1, hf, hs, hterm⟩
      refine ⟨k + 1, r, ?_, by omega, fun _ => by omega, by omega, ?_, ?_⟩
      · rw [updateLoop_step_cont env chainId now nowMs n fuel attempt fetches sleeps store
          (by rw [henv]; rfl)]
        exact heq
      · rw [hs]
        rcases Nat.eq_zero_or_pos k with hk0 | hkpos
        · subst hk0
          simp
        · have hp : hardFail now (env attempt) = false := by rw [henv]; rfl
          have hrange : List.range' attempt (k + 1 - 1) =
              attempt :: List.range' (attempt + 1) (k - 1) := by
            have e : k + 1 - 1 = (k - 1) + 1 := by omega
            rw [e]
            exact List.range'_succ attempt (k - 1) 1
          rw [hrange]
          simp [List.filter_cons, hp]
      · intro _ hh
        rcases Nat.eq_zero_or_pos k with hk0 | hkpos
        · subst hk0
          rw [show attempt + (0 + 1) - 1 = attempt by omega, henv] at hh
          simp [hardFail] at hh
        · have e : attempt + (k + 1) - 1 = attempt + 1 + k - 1 := by omega
          rw [e] at hh ⊢
          exact hterm hkpos hh
    | badShape =>
      rcases ih (attempt + 1) (fetches + 1) sleeps store (by omega) (by omega) with
        ⟨k, r, heq, hk, hk1, hf, hs, hterm⟩
      refine ⟨k + 1, r, ?_, by omega, fun _ => by omega, by omega, ?_, ?_⟩
      · rw [updateLoop_step_cont env chainId now nowMs n fuel attempt fetches sleeps store
          (by rw [henv]; rfl)]
        exact heq
      · rw [hs]
        rcases Nat.eq_zero_or_pos k with hk0 | hkpos
        · subst hk0
          simp
        · have hp : hardFail now (env attempt) = false := by rw [henv]; rfl
          have hrange : List.range' attempt (k + 1 - 1) =
              attempt :: List.range' (attempt + 1) (k - 1) := by
            have e : k + 1 - 1 = (k - 1) + 1 := by omega
            rw [e]
            exact List.range'_succ attempt (k - 1) 1
          rw [hrange]
          simp [List.filter_cons, hp]
      · intro _ hh
        rcases Nat.eq_zero_or_pos k with hk0 | hkpos
        · subst hk0
          rw [show attempt + (0 + 1) - 1 = attempt by omega, henv] at hh
          simp [hardFail] at hh
        · have e : attempt + (k + 1) - 1 = attempt + 1 + k - 1 := by omega
          rw [e] at hh ⊢
          exact hterm hkpos hh
    | ok rs =>
      by_cases hv : 0 < (filterValid rs now).length
      · refine ⟨1, ⟨.applied, bulkWrite store (toUpsertOps chainId nowMs (filterValid rs now)),
          fetches + 1, sleeps⟩, ?_, by omega, by omega, rfl, by simp, ?_⟩
        · exact updateLoop_term env chainId now nowMs n fuel attempt fetches sleeps store _ _
            (by simp [attemptBody, henv, hv])
        · intro _ hh
          rw [show attempt + 1 - 1 = attempt by omega, henv] at hh
          simp [hardFail] at hh
      · refine ⟨1, ⟨.noData, store, fetches + 1, sleeps⟩, ?_, by omega, by omega, rfl,
          by simp, ?_⟩
        · exact updateLoop_term env chainId now nowMs n fuel attempt fetches sleeps store _ _
            (by simp [attemptBody, henv, hv])
        · intro _ hh
          rw [show attempt + 1 - 1 = attempt by omega, henv] at hh
          simp [hardFail] at hh
    | okWriteThrows rs =>
      by_cases hv : 0 < (filterValid rs now).length
      · by_cases ha : attempt = n
        · refine ⟨1, ⟨.failed, store, fetches + 1, sleeps⟩, ?_, by omega, by omega, rfl,
            by simp, fun _ _ => ⟨rfl, by omega⟩⟩
          subst ha
          exact updateLoop_last_error env chainId now nowMs attempt fuel fetches sleeps store
            (by simp [attemptBody, henv, hv])
        · rcases ih (attempt + 1) (fetches + 1) (sleeps ++ [attempt * 2000]) store
            (by omega) (by omega) with ⟨k, r, heq, hk, hk1, hf, hs, hterm⟩
          have hk1' : 1 ≤ k := hk1 (by omega)
          refine ⟨k + 1, r, ?_, by omega, fun _ => by omega, by omega, ?_, ?_⟩
          · rw [updateLoop_step_error env chainId now nowMs n fuel attempt fetches sleeps store
              (by simp [attemptBody, henv, hv]) ha]
            exact heq
          · have hp : hardFail now (env attempt) = true := by
              rw [henv]
              simp [hardFail, hv]
            rw [hs]
            have hrange : List.range' attempt (k + 1 - 1) =
                attempt :: List.range' (attempt + 1) (k - 1) := by
              have e : k + 1 - 1 = (k - 1) + 1 := by omega
              rw [e]
              exact List.range'_succ attempt (k - 1) 1
            rw [hrange]
            simp [List.filter_cons, hp]
          · intro _ hh
            have e : attempt + (k + 1) - 1 = attempt + 1 + k - 1 := by omega
            rw [e] at hh ⊢
            exact hterm hk1' hh
      · refine ⟨1, ⟨.noData, store, fetches + 1, sleeps⟩, ?_, by omega, by omega, rfl,
          by simp, ?_⟩
        · exact updateLoop_term env chainId now nowMs n fuel attempt fetches sleeps store _ _
            (by simp [attemptBody, henv, hv])
        · intro _ hh
          rw [show attempt + 1 - 1 = attempt by omega, henv] at hh
          simp [hardFail, hv] at hh

/-- Reach attempt `a` after a prefix of non-terminal attempts. -/
lemma updateTpsData_reach (env : ℕ → FetchResult) (chainId : ℕ) (now nowMs : ℤ)
    (store : List TpsRecord) (n a : ℕ) (h1 : 1 ≤ a) (h2 : a ≤ n)
    (hpre : ∀ b, 1 ≤ b → b < a → env b = .throws ∨ env b = .noBody ∨ env b = .badShape) :
    updateTpsData env chainId now nowMs store n =
      updateLoop env chainId now nowMs n (n - (a - 1)) a store (a - 1)
        (((List.range' 1 (a - 1)).filter fun b => isThrows (env b)).map fun b => b * 2000) := by
  unfold updateTpsData
  have h := updateLoop_shift env chainId now nowMs n (a - 1) n 1 0 [] store
    (by omega) (by omega) (fun b hb1 hb2 => hpre b hb1 (by omega))
  rw [h]
  have e2 : 1 + (a - 1) = a := by omega
  have e3 : 0 + (a - 1) = a - 1 := by omega
  rw [e2, e3, List.nil_append]

lemma updateTpsData_allThrows (env : ℕ → FetchResult) (chainId : ℕ) (now nowMs : ℤ)
    (store : List TpsRecord) (n : ℕ) (h1 : 1 ≤ n)
    (hall : ∀ a, 1 ≤ a → a ≤ n → env a = .throws) :
    updateTpsData env chainId now nowMs store n =
      .ok ⟨.failed, store, n, (List.range' 1 (n - 1)).map fun b => b * 2000⟩ := by
  rw [updateTpsData_reach env chainId now nowMs store n n h1 (le_refl n)
    (fun b hb1 hb2 => Or.inl (hall b hb1 (by omega)))]
  obtain ⟨m, hm⟩ : ∃ m, n - (n - 1) = m + 1 := ⟨0, by omega⟩
  rw [hm, updateLoop_last_error env chainId now nowMs n m (n - 1) _ store
    (by rw [hall n h1 (le_refl n)]; rfl)]
  have e1 : n - 1 + 1 = n := by omega
  rw [e1]
  have hfil : (List.range' 1 (n - 1)).filter (fun b => isThrows (env b)) =
      List.range' 1 (n - 1) := by
    rw [List.filter_eq_self]
    intro b hb
    rcases List.mem_range'_1.mp hb with ⟨hb1, hb2⟩
    rw [hall b hb1 (by omega)]
    rfl
  rw [hfil]

/-- Claim C2: `updateTpsData` never raises to its caller, and when every
one of the `retryCount` fetch attempts throws it returns the terminal
failed (`null`) outcome after exactly `retryCount` fetch attempts, the
store untouched, having slept `attempt * 2000` ms after every non-final
attempt. -/
theorem updateTpsData_failed_after_maxAttempts (env : ℕ → FetchResult) (chainId : ℕ)
    (now nowMs : ℤ) (store : List TpsRecord) (n : ℕ) (h1 : 1 ≤ n) :
    (∃ r : UpdateRun, updateTpsData env chainId now nowMs store n = Except.ok r) ∧
    ((∀ a, 1 ≤ a → a ≤ n → env a = .throws) →
      updateTpsData env chainId now nowMs store n =
        .ok ⟨.failed, store, n, (List.range' 1 (n - 1)).map fun b => b * 2000⟩) := by
  constructor
  · rcases updateLoop_char env chainId now nowMs n n 1 0 [] store (by omega) (by omega) with
      ⟨k, r, heq, _⟩
    exact ⟨r, heq⟩
  · exact updateTpsData_allThrows env chainId now nowMs store n h1

/-- Witness for `updateTpsData_failed_after_maxAttempts`: three throwing
attempts with `retryCount = 3` give the failed outcome after 3 fetches
with backoff sleeps of 2000 ms and 4000 ms. -/
theorem updateTpsData_failed_after_maxAttempts_witness :
    updateTpsData (fun _ => FetchResult.throws) 1 0 0 [] 3 =
      .ok ⟨.failed, [], 3, [2000, 4000]⟩ := by
  have h := (updateTpsData_failed_after_maxAttempts (fun _ => FetchResult.throws)
    1 0 0 [] 3 (by decide)).2 (fun a _ _ => rfl)
  rw [h]
  rfl

/-- Claim C7: on the first attempt whose fetch succeeds with the expected
shape, a nonempty validated list is upserted and the call returns
`applied` immediately (attempt count = that attempt, no further fetches),
and an empty validated list returns `noData` immediately without
retrying. -/
theorem updateTpsData_short_circuit (env : ℕ → FetchResult) (chainId : ℕ)
    (now nowMs : ℤ) (store : List TpsRecord) (n a : ℕ) (rs : List RawPoint)
    (h1 : 1 ≤ a) (h2 : a ≤ n) (henv : env a = .ok rs)
    (hpre : ∀ b, 1 ≤ b → b < a → env b = .throws ∨ env b = .noBody ∨ env b = .badShape) :
    (0 < (filterValid rs now).length →
      updateTpsData env chainId now nowMs store n =
        .ok ⟨.applied, bulkWrite store (toUpsertOps chainId nowMs (filterValid rs now)), a,
          ((List.range' 1 (a - 1)).filter fun b => isThrows (env b)).map fun b => b * 2000⟩) ∧
    ((filterValid rs now).length = 0 →
      updateTpsData env chainId now nowMs store n =
        .ok ⟨.noData, store, a,
          ((List.range' 1 (a - 1)).filter fun b => isThrows (env b)).map fun b => b * 2000⟩) := by
  rw [updateTpsData_reach env chainId now nowMs store n a h1 h2 hpre]
  obtain ⟨m, hm⟩ : ∃ m, n - (a - 1) = m + 1 := ⟨n - a, by omega⟩
  rw [hm]
  have ha1 : a - 1 + 1 = a := by omega
  constructor
  · intro hv
    rw [updateLoop_term env chainId now nowMs n m a (a - 1) _ store
      (bulkWrite store (toUpsertOps chainId nowMs (filterValid rs now))) .applied
      (by simp [attemptBody, henv, hv])]
    rw [ha1]
  · intro hv
    rw [updateLoop_term env chainId now nowMs n m a (a - 1) _ store store .noData
      (by simp [attemptBody, henv, hv])]
    rw [ha1]

/-- Witness for `updateTpsData_short_circuit`: an empty result list on the
first attempt returns `noData` after one fetch; a single in-window point
on the first attempt is upserted and returns `applied` after one fetch. -/
theorem updateTpsData_short_circuit_witness :
    updateTpsData (fun _ => FetchResult.ok []) 1 0 0 [] 3 = .ok ⟨.noData, [], 1, []⟩ ∧
    updateTpsData (fun _ => FetchResult.ok [⟨.num 0, .num 5⟩]) 1 0 7 [] 3 =
      .ok ⟨.applied, [⟨1, 0, some 5, 7⟩], 1, []⟩ := by
  constructor
  · have h := (updateTpsData_short_circuit (fun _ => FetchResult.ok []) 1 0 0 [] 3 1 []
      (by decide) (by decide) rfl (fun b hb1 hb2 => absurd hb2 (by omega))).2 rfl
    rw [h]
    rfl
  · have hv : 0 < (filterValid [⟨.num 0, .num 5⟩] 0).length := by
      norm_num [filterValid, validPoint, jsNumber, jsParseFloat]
    have h := (updateTpsData_short_circuit (fun _ => FetchResult.ok [⟨.num 0, .num 5⟩])
      1 0 7 [] 3 1 [⟨.num 0, .num 5⟩]
      (by decide) (by decide) rfl (fun b hb1 hb2 => absurd hb2 (by omega))).1 hv
    rw [h]
    norm_num [filterValid, validPoint, jsNumber, jsParseFloat, bulkWrite, toUpsertOps,
      upsertOne, List.filter, isThrows, List.range']

/-- Claim C8: a backoff sleep of exactly `attempt * 2000` ms follows
attempt `attempt` if and only if that attempt's `try` body raised (a soft
shape mismatch never sleeps) and attempts remain; after a final raising
attempt no sleep occurs and the failed outcome is returned. -/
theorem updateTpsData_backoff_spec (env : ℕ → FetchResult) (chainId : ℕ)
    (now nowMs : ℤ) (store : List TpsRecord) (n : ℕ) (h1 : 1 ≤ n) :
    1 ≤ (runOf (updateTpsData env chainId now nowMs store n) store).fetches ∧
    (runOf (updateTpsData env chainId now nowMs store n) store).fetches ≤ n ∧
    (runOf (updateTpsData env chainId now nowMs store n) store).sleeps =
      ((List.range' 1
          ((runOf (updateTpsData env chainId now nowMs store n) store).fetches - 1)).filter
        fun b => hardFail now (env b)).map (fun b => b * 2000) ∧
    (hardFail now
        (env ((runOf (updateTpsData env chainId now nowMs store n) store).fetches)) = true →
      (runOf (updateTpsData env chainId now nowMs store n) store).outcome = .failed ∧
      (runOf (updateTpsData env chainId now nowMs store n) store).fetches = n) := by
  rcases updateLoop_char env chainId now nowMs n n 1 0 [] store (by omega) (by omega) with
    ⟨k, r, heq, hk, hk1, hf, hs, hterm⟩
  have heq2 : updateTpsData env chainId now nowMs store n = .ok r := heq
  rw [heq2]
  simp only [runOf]
  have hk1' : 1 ≤ k := hk1 h1
  have hfk : r.fetches = k := by omega
  refine ⟨by omega, by omega, ?_, ?_⟩
  · rw [hs, hfk]
    simp
  · intro hh
    rw [hfk] at hh
    have := hterm hk1' (by rw [show 1 + k - 1 = k by omega]; exact hh)
    exact ⟨this.1, by omega⟩

/-- Witness for `updateTpsData_backoff_spec`: one throwing attempt then a
well-shaped empty response, with `retryCount = 2`. -/
theorem updateTpsData_backoff_spec_witness :
    1 ≤ (runOf (updateTpsData (fun a => if a = 1 then FetchResult.throws else .ok [])
        1 0 0 [] 2) []).fetches ∧
    (runOf (updateTpsData (fun a => if a = 1 then FetchResult.throws else .ok [])
        1 0 0 [] 2) []).fetches ≤ 2 ∧
    (runOf (updateTpsData (fun a => if a = 1 then FetchResult.throws else .ok [])
        1 0 0 [] 2) []).sleeps =
      ((List.range' 1
          ((runOf (updateTpsData (fun a => if a = 1 then FetchResult.throws else .ok [])
            1 0 0 [] 2) []).fetches - 1)).filter
        fun b => hardFail 0 ((fun a => if a = 1 then FetchResult.throws else .ok []) b)).map
        (fun b => b * 2000) ∧
    (hardFail 0 ((fun a => if a = 1 then FetchResult.throws else .ok [])
        ((runOf (updateTpsData (fun a => if a = 1 then FetchResult.throws else .ok [])
          1 0 0 [] 2) []).fetches)) = true →
      (runOf (updateTpsData (fun a => if a = 1 then FetchResult.throws else .ok [])
        1 0 0 [] 2) []).outcome = .failed ∧
      (runOf (updateTpsData (fun a => if a = 1 then FetchResult.throws else .ok [])
        1 0 0 [] 2) []).fetches = 2) :=
  updateTpsData_backoff_spec (fun a => if a = 1 then FetchResult.throws else .ok [])
    1 0 0 [] 2 (by decide)

/-- Claim C9: a fetch response missing the expected point-list shape (no
body, or non-array `results`) is a soft failure: an all-soft run consumes
the full attempt budget (one fetch per attempt), never raises, never
sleeps, and ends with the failed (`null`) outcome; any mix of soft
failures and exceptions likewise consumes the same budget and never
raises. -/
theorem updateTpsData_soft_shape_retry (env env2 : ℕ → FetchResult) (chainId : ℕ)
    (now nowMs : ℤ) (store : List TpsRecord) (n : ℕ) (h1 : 1 ≤ n)
    (hsoft : ∀ b, 1 ≤ b → b ≤ n → env b = .noBody ∨ env b = .badShape)
    (hmix : ∀ b, 1 ≤ b → b ≤ n →
      env2 b = .throws ∨ env2 b = .noBody ∨ env2 b = .badShape) :
    updateTpsData env chainId now nowMs store n = .ok ⟨.failed, store, n, []⟩ ∧
    (∃ sleeps, updateTpsData env2 chainId now nowMs store n =
      .ok ⟨.failed, store, n, sleeps⟩) := by
  constructor
  · rw [updateTpsData_reach env chainId now nowMs store n n h1 (le_refl n)
      (fun b hb1 hb2 => Or.inr (hsoft b hb1 (by omega)))]
    obtain ⟨m, hm⟩ : ∃ m, n - (n - 1) = m + 1 := ⟨0, by omega⟩
    have hmm : m = 0 := by omega
    subst hmm
    rw [hm]
    have hfil : (List.range' 1 (n - 1)).filter (fun b => isThrows (env b)) = [] := by
      rw [List.filter_eq_nil_iff]
      intro b hb
      rcases List.mem_range'_1.mp hb with ⟨hb1, hb2⟩
      rcases hsoft b hb1 (by omega) with h | h <;> rw [h] <;> simp [isThrows]
    rw [hfil]
    rcases hsoft n h1 (le_refl n) with h | h
    · rw [updateLoop_step_cont env chainId now nowMs n 0 n (n - 1) _ store
        (by rw [h]; rfl)]
      rw [updateLoop]
      simp only [List.map_nil]
      have e : n - 1 + 1 = n := by omega
      rw [e]
    · rw [updateLoop_step_cont env chainId now nowMs n 0 n (n - 1) _ store
        (by rw [h]; rfl)]
      rw [updateLoop]
      simp only [List.map_nil]
      have e : n - 1 + 1 = n := by omega
      rw [e]
  · rw [updateTpsData_reach env2 chainId now nowMs store n n h1 (le_refl n)
      (fun b hb1 hb2 => hmix b hb1 (by omega))]
    obtain ⟨m, hm⟩ : ∃ m, n - (n - 1) = m + 1 := ⟨0, by omega⟩
    rw [hm]
    have e : n - 1 + 1 = n := by omega
    rcases hmix n h1 (le_refl n) with h | h | h
    · refine ⟨((List.range' 1 (n - 1)).filter fun b => isThrows (env2 b)).map
        fun b => b * 2000, ?_⟩
      rw [updateLoop_last_error env2 chainId now nowMs n m (n - 1) _ store
        (by rw [h]; rfl)]
      rw [e]
    · refine ⟨((List.range' 1 (n - 1)).filter fun b => isThrows (env2 b)).map
        fun b => b * 2000, ?_⟩
      rw [updateLoop_step_cont env2 chainId now nowMs n m n (n - 1) _ store
        (by rw [h]; rfl)]
      have hmm : m = 0 := by omega
      subst hmm
      rw [updateLoop, e]
    · refine ⟨((List.range' 1 (n - 1)).filter fun b => isThrows (env2 b)).map
        fun b => b * 2000, ?_⟩
      rw [updateLoop_step_cont env2 chainId now nowMs n m n (n - 1) _ store
        (by rw [h]; rfl)]
      have hmm : m = 0 := by omega
      subst hmm
      rw [updateLoop, e]

/-- Witness for `updateTpsData_soft_shape_retry`: two shape-mismatch
attempts with `retryCount = 2` consume both attempts and fail without
sleeping. -/
theorem updateTpsData_soft_shape_retry_witness :
    updateTpsData (fun _ => FetchResult.badShape) 1 0 0 [] 2 =
      .ok ⟨.failed, [], 2, []⟩ :=
  (updateTpsData_soft_shape_retry (fun _ => FetchResult.badShape)
    (fun _ => FetchResult.badShape) 1 0 0 [] 2 (by decide)
    (fun b _ _ => Or.inr rfl) (fun b _ _ => Or.inr (Or.inr rfl))).1

/-! ### Single-chain refresh route (claim C6) -/

/-- Counterexample to claim C6 as stated: with every retry attempt of both
the update and the fill-on-miss read throwing and an empty store, the
single-chain refresh endpoint answers `success: true` with
`latestTps: null` — a response indicating success, not an explicit failure
indicator. -/
theorem updateChainTpsRoute_counterexample :
    (updateChainTpsRoute (fun _ => FetchResult.throws) (fun _ => FetchResult.throws)
      1 0 0 []).success = true ∧
    (updateChainTpsRoute (fun _ => FetchResult.throws) (fun _ => FetchResult.throws)
      1 0 0 []).latestTps = none := by
  constructor <;> rfl

/-- Claim C6, amended: when all retry attempts of the single-chain refresh
are exhausted, the endpoint still responds `success: true`; the update
never raises, so the response merely carries whatever latest record the
store already held (`null` when none) — failure is signalled only
implicitly, and a 500 `success: false` response would require the
subsequent store read itself to throw. -/
theorem updateChainTpsRoute_amended (env envRead : ℕ → FetchResult) (chainId : ℕ)
    (now nowMs : ℤ) (store : List TpsRecord)
    (h1 : ∀ a, 1 ≤ a → a ≤ 3 → env a = .throws)
    (h2 : ∀ a, 1 ≤ a → a ≤ 3 → envRead a = .throws) :
    (updateChainTpsRoute env envRead chainId now nowMs store).success = true ∧
    (updateChainTpsRoute env envRead chainId now nowMs store).latestTps =
      latestForChain store chainId := by
  have hrun := updateTpsData_allThrows env chainId now nowMs store 3 (by decide) h1
  have hrun2 := updateTpsData_allThrows envRead chainId now nowMs store 3 (by decide) h2
  unfold updateChainTpsRoute
  rw [hrun]
  simp only [runOf]
  refine ⟨trivial, ?_⟩
  unfold getLatestTps
  cases hl : latestForChain store chainId with
  | some r => simp [hl]
  | none => simp [hl, hrun2, runOf]

/-- Witness for `updateChainTpsRoute_amended`: a store holding one record
for chain 2; after all throwing attempts the response is still successful
and returns that record. -/
theorem updateChainTpsRoute_amended_witness :
    (updateChainTpsRoute (fun _ => FetchResult.throws) (fun _ => FetchResult.throws)
      2 0 0 [⟨2, 50, some 4, 0⟩]).success = true ∧
    (updateChainTpsRoute (fun _ => FetchResult.throws) (fun _ => FetchResult.throws)
      2 0 0 [⟨2, 50, some 4, 0⟩]).latestTps =
      latestForChain [⟨2, 50, some 4, 0⟩] 2 :=
  updateChainTpsRoute_amended (fun _ => FetchResult.throws) (fun _ => FetchResult.throws)
    2 0 0 [⟨2, 50, some 4, 0⟩] (fun _ _ _ => rfl) (fun _ _ _ => rfl)

/-! ### Network snapshot (claims C3, C10) -/

lemma pickLatest_go (l : List TpsRecord) : ∀ b : TpsRecord,
    ∃ r, l.foldl
        (fun best r =>
          match best with
          | none => some r
          | some b2 => if b2.timestamp < r.timestamp then some r else some b2)
        (some b) = some r ∧
      (r = b ∨ r ∈ l) ∧ b.timestamp ≤ r.timestamp ∧ ∀ x ∈ l, x.timestamp ≤ r.timestamp := by
  induction l with
  | nil => intro b; exact ⟨b, rfl, Or.inl rfl, le_refl _, by simp⟩
  | cons x xs ih =>
    intro b
    rw [List.foldl_cons]
    by_cases hx : b.timestamp < x.timestamp
    · rcases ih x with ⟨r, hr, hmem, hle, hall⟩
      refine ⟨r, by simpa [hx] using hr, ?_, ?_, ?_⟩
      · rcases hmem with h | h
        · exact Or.inr (h ▸ List.mem_cons_self _ _)
        · exact Or.inr (List.mem_cons_of_mem _ h)
      · exact le_of_lt (lt_of_lt_of_le hx hle)
      · intro y hy
        rcases List.mem_cons.mp hy with h | h
        · exact h ▸ hle
        · exact hall y h
    · rcases ih b with ⟨r, hr, hmem, hle, hall⟩
      refine ⟨r, by simpa [hx] using hr, ?_, hle, ?_⟩
      · rcases hmem with h | h
        · exact Or.inl h
        · exact Or.inr (List.mem_cons_of_mem _ h)
      · intro y hy
        rcases List.mem_cons.mp hy with h | h
        · subst h
          exact le_trans (not_lt.mp hx) hle
        · exact hall y h

lemma pickLatest_none_iff (l : List TpsRecord) : pickLatest l = none ↔ l = [] := by
  cases l with
  | nil => simp [pickLatest]
  | cons x xs =>
    rw [pickLatest, List.foldl_cons]
    rcases pickLatest_go xs x with ⟨r, hr, _⟩
    simp only [show (match (none : Option TpsRecord) with
      | none => some x
      | some b2 => if b2.timestamp < x.timestamp then some x else some b2) = some x from rfl]
    rw [hr]
    simp

lemma pickLatest_some_spec (l : List TpsRecord) (r : TpsRecord)
    (h : pickLatest l = some r) :
    r ∈ l ∧ ∀ x ∈ l, x.timestamp ≤ r.timestamp := by
  cases l with
  | nil => simp [pickLatest] at h
  | cons x xs =>
    rw [pickLatest, List.foldl_cons] at h
    rcases pickLatest_go xs x with ⟨r2, hr2, hmem, hle, hall⟩
    simp only [show (match (none : Option TpsRecord) with
      | none => some x
      | some b2 => if b2.timestamp < x.timestamp then some x else some b2) = some x from rfl]
      at h
    rw [hr2] at h
    cases h
    constructor
    · rcases hmem with h | h
      · exact h ▸ List.mem_cons_self _ _
      · exact List.mem_cons_of_mem _ h
    · intro y hy
      rcases List.mem_cons.mp hy with h | h
      · exact h ▸ hle
      · exact hall y h

lemma latestWithin_some (store : List TpsRecord) (c : ℕ) (lb ub : ℚ) (r : TpsRecord)
    (h : latestWithin store c lb ub = some r) :
    r ∈ store ∧ r.chainId = c ∧ lb ≤ r.timestamp ∧ r.timestamp ≤ ub ∧
      ∀ x ∈ store, x.chainId = c → lb ≤ x.timestamp → x.timestamp ≤ ub →
        x.timestamp ≤ r.timestamp := by
  rcases pickLatest_some_spec _ r h with ⟨hmem, hall⟩
  rcases List.mem_filter.mp hmem with ⟨hstore, hp⟩
  simp only [Bool.and_eq_true, decide_eq_true_eq] at hp
  refine ⟨hstore, hp.1.1, hp.1.2, hp.2, ?_⟩
  intro x hx h1 h2 h3
  exact hall x (List.mem_filter.mpr ⟨hx, by simp [h1, h2, h3]⟩)

lemma latestWithin_isSome_iff (store : List TpsRecord) (c : ℕ) (lb ub : ℚ) :
    (latestWithin store c lb ub).isSome ↔
      ∃ x ∈ store, x.chainId = c ∧ lb ≤ x.timestamp ∧ x.timestamp ≤ ub := by
  constructor
  · intro h
    rcases Option.isSome_iff_exists.mp h with ⟨r, hr⟩
    rcases latestWithin_some store c lb ub r hr with ⟨hmem, h1, h2, h3, _⟩
    exact ⟨r, hmem, h1, h2, h3⟩
  · rintro ⟨x, hx, h1, h2, h3⟩
    rw [Option.isSome_iff_ne_none]
    intro hnone
    rw [latestWithin, pickLatest_none_iff] at hnone
    have hmem : x ∈ store.filter fun r =>
        decide (r.chainId = c) && decide (lb ≤ r.timestamp) && decide (r.timestamp ≤ ub) :=
      List.mem_filter.mpr ⟨hx, by simp [h1, h2, h3]⟩
    rw [hnone] at hmem
    simp at hmem

lemma validResults_eq (chains : List ℕ) (store : List TpsRecord) (lb ub : ℚ) :
    (((chains.map fun c => latestWithin store c lb ub).filterMap id).filter fun r =>
      decide (lb ≤ r.timestamp) && decide (r.timestamp ≤ ub)) =
    chains.filterMap fun c => latestWithin store c lb ub := by
  induction chains with
  | nil => rfl
  | cons c cs ih =>
    cases h : latestWithin store c lb ub with
    | none => simpa [List.filterMap_cons, h] using ih
    | some r =>
      rcases latestWithin_some store c lb ub r h with ⟨_, _, h2, h3, _⟩
      simpa [List.filterMap_cons, h, List.filter_cons, h2, h3] using ih

lemma foldl_add_getD (l : List TpsRecord) : ∀ a : ℚ,
    l.foldl (fun sum r => sum + r.value.getD 0) a =
      a + ((l.map fun r => r.value.getD 0).sum) := by
  induction l with
  | nil => intro a; simp
  | cons x xs ih =>
    intro a
    rw [List.foldl_cons, ih, List.map_cons, List.sum_cons]
    ring

lemma length_filterMap_isSome (chains : List ℕ) (f : ℕ → Option TpsRecord) :
    (chains.filterMap f).length = (chains.filter fun c => (f c).isSome).length := by
  induction chains with
  | nil => rfl
  | cons c cs ih =>
    cases h : f c <;> simp [List.filterMap_cons, List.filter_cons, h, ih]

/-- Shape of `getNetworkTps` after collapsing the defensive re-filter
(which never removes anything) and the running-sum fold. -/
lemma getNetworkTps_eq (chains : List ℕ) (store : List TpsRecord) (now : ℤ) :
    getNetworkTps chains store now =
      if (chains.filterMap fun c =>
          latestWithin store c ((now : ℚ) - 24 * 60 * 60) (now : ℚ)) = [] then
        { totalTps := 0, chainCount := 0, timestamp := (now : ℚ), dataAge := 0 }
      else
        { totalTps := round2fixed
            (((chains.filterMap fun c =>
              latestWithin store c ((now : ℚ) - 24 * 60 * 60) (now : ℚ)).map fun r =>
                r.value.getD 0).sum)
          chainCount := (chains.filterMap fun c =>
            latestWithin store c ((now : ℚ) - 24 * 60 * 60) (now : ℚ)).length
          timestamp := listMax ((chains.filterMap fun c =>
            latestWithin store c ((now : ℚ) - 24 * 60 * 60) (now : ℚ)).map fun r =>
              r.timestamp)
          dataAge := max 0 ⌊((now : ℚ) - listMax ((chains.filterMap fun c =>
            latestWithin store c ((now : ℚ) - 24 * 60 * 60) (now : ℚ)).map fun r =>
              r.timestamp)) / 60⌋ } := by
  simp only [getNetworkTps]
  rw [validResults_eq]
  by_cases h : (chains.filterMap fun c =>
      latestWithin store c ((now : ℚ) - 24 * 60 * 60) (now : ℚ)) = []
  · simp [h]
  · rw [if_neg (by simpa using h), if_neg h, foldl_add_getD]
    simp

/-- Claim C3: with no chain holding an in-window record the snapshot is
zeroed with `timestamp = now` and `dataAge = 0`; otherwise `totalTps` is
the 2-decimal rounding of the sum of each valid chain's latest in-window
value, `chainCount` counts the valid chains, `timestamp` is the maximal
latest timestamp (not `now`), and `dataAge = max 0 ⌊(now - timestamp)/60⌋`
minutes; a chain has an in-window latest record iff it has a store record
with timestamp in `[now - 86400, now]`, so chains with only future or
stale records are excluded from both sum and count. -/
theorem getNetworkTps_snapshot_spec (chains : List ℕ) (store : List TpsRecord) (now : ℤ) :
    ((∀ c ∈ chains, latestWithin store c ((now : ℚ) - 86400) (now : ℚ) = none) →
      getNetworkTps chains store now =
        { totalTps := 0, chainCount := 0, timestamp := (now : ℚ), dataAge := 0 }) ∧
    ((∃ c ∈ chains, (latestWithin store c ((now : ℚ) - 86400) (now : ℚ)).isSome) →
      (getNetworkTps chains store now).totalTps =
        round2fixed (((chains.filterMap fun c =>
          latestWithin store c ((now : ℚ) - 86400) (now : ℚ)).map fun r =>
            r.value.getD 0).sum) ∧
      (getNetworkTps chains store now).chainCount =
        (chains.filter fun c =>
          (latestWithin store c ((now : ℚ) - 86400) (now : ℚ)).isSome).length ∧
      (getNetworkTps chains store now).timestamp =
        listMax ((chains.filterMap fun c =>
          latestWithin store c ((now : ℚ) - 86400) (now : ℚ)).map fun r => r.timestamp) ∧
      (getNetworkTps chains store now).dataAge =
        max 0 ⌊((now : ℚ) - (getNetworkTps chains store now).timestamp) / 60⌋) ∧
    (∀ c, (latestWithin store c ((now : ℚ) - 86400) (now : ℚ)).isSome ↔
      ∃ x ∈ store, x.chainId = c ∧ (now : ℚ) - 86400 ≤ x.timestamp ∧
        x.timestamp ≤ (now : ℚ)) := by
  have hnum : ((now : ℚ) - 86400) = ((now : ℚ) - 24 * 60 * 60) := by norm_num
  rw [hnum]
  refine ⟨?_, ?_, fun c => latestWithin_isSome_iff store c _ _⟩
  · intro hall
    rw [getNetworkTps_eq, if_pos (List.filterMap_eq_nil_iff.mpr hall)]
  · rintro ⟨c, hc, hcs⟩
    have hne : (chains.filterMap fun c =>
        latestWithin store c ((now : ℚ) - 24 * 60 * 60) (now : ℚ)) ≠ [] := by
      intro h
      rw [List.filterMap_eq_nil_iff] at h
      rw [h c hc] at hcs
      simp at hcs
    rw [getNetworkTps_eq, if_neg hne]
    exact ⟨rfl, length_filterMap_isSome chains _, rfl, rfl⟩

/-- Witness for `getNetworkTps_snapshot_spec`: an empty store gives the
zeroed snapshot; a single in-window record of value 5 at `timestamp = 940`
with `now = 1000` gives `totalTps = 5`, one chain, `timestamp = 940` and
`dataAge = 1` minute. -/
theorem getNetworkTps_snapshot_spec_witness :
    getNetworkTps [1] [] 1000 =
      { totalTps := 0, chainCount := 0, timestamp := 1000, dataAge := 0 } ∧
    getNetworkTps [1] [⟨1, 940, some 5, 0⟩] 1000 =
      { totalTps := 5, chainCount := 1, timestamp := 940, dataAge := 1 } := by
  constructor
  · exact (getNetworkTps_snapshot_spec [1] [] 1000).1 (fun c _ => rfl)
  · have hs : (latestWithin [⟨1, 940, some 5, 0⟩] 1
        (((1000 : ℤ) : ℚ) - 86400) ((1000 : ℤ) : ℚ)).isSome := by
      rw [latestWithin_isSome_iff]
      exact ⟨⟨1, 940, some 5, 0⟩, List.mem_singleton_self _, rfl,
        by push_cast; norm_num, by push_cast; norm_num⟩
    have h := (getNetworkTps_snapshot_spec [1] [⟨1, 940, some 5, 0⟩] 1000).2.1
      ⟨1, List.mem_singleton_self 1, hs⟩
    have e : ((1000 : ℤ) : ℚ) = (1000 : ℚ) := by norm_num
    have hlw : latestWithin [⟨(1 : ℕ), (940 : ℚ), some 5, 0⟩] 1
        (((1000 : ℤ) : ℚ) - 86400) ((1000 : ℤ) : ℚ) = some ⟨1, 940, some 5, 0⟩ := by
      rw [e, latestWithin, pickLatest]
      norm_num [List.filter]
    rcases h with ⟨h1, h2, h3, h4⟩
    rcases hx : getNetworkTps [1] [⟨1, 940, some 5, 0⟩] 1000 with ⟨t, cc, ts, da⟩
    rw [hx] at h1 h2 h3 h4
    dsimp only at h1 h2 h3 h4
    simp only [List.filterMap_cons, List.filterMap_nil, hlw, List.map_cons, List.map_nil,
      List.sum_cons, List.sum_nil, Option.getD_some, List.filter_cons, Option.isSome_some,
      List.length_cons, List.length_nil, listMax, List.foldl_nil, add_zero,
      List.filter_nil, if_pos] at h1 h2 h3
    have h1v : t = 5 := by
      rw [h1, round2fixed]
      norm_num
    have h3v : ts = 940 := h3
    have h4v : da = 1 := by
      rw [h4, e, h3v]
      rw [show ((1000 : ℚ) - 940) / 60 = 1 by norm_num]
      norm_num
    have h2v : cc = 1 := by simpa using h2
    rw [h1v, h2v, h3v, h4v]

/-- Claim C10: in the snapshot, a chain whose latest in-window record has
a missing (`null`) `value` still counts toward `chainCount`, and its
contribution to `totalTps` is `value || 0 = 0`, so `totalTps` is always a
defined number; concretely one chain whose only record has no value gives
`chainCount = 1` and `totalTps = 0`. -/
theorem getNetworkTps_falsy_value_spec (chains : List ℕ) (store : List TpsRecord)
    (now : ℤ) :
    (getNetworkTps chains store now).chainCount =
      (chains.filter fun c =>
        (latestWithin store c ((now : ℚ) - 86400) (now : ℚ)).isSome).length ∧
    (getNetworkTps chains store now).totalTps =
      round2fixed (((chains.filterMap fun c =>
        latestWithin store c ((now : ℚ) - 86400) (now : ℚ)).map fun r =>
          r.value.getD 0).sum) ∧
    (∀ m : ℤ, getNetworkTps [1] [⟨1, (m : ℚ), none, 0⟩] m =
      { totalTps := 0, chainCount := 1, timestamp := (m : ℚ), dataAge := 0 }) := by
  have hnum : ((now : ℚ) - 86400) = ((now : ℚ) - 24 * 60 * 60) := by norm_num
  rw [hnum]
  refine ⟨?_, ?_, ?_⟩
  · rw [getNetworkTps_eq]
    by_cases h : (chains.filterMap fun c =>
        latestWithin store c ((now : ℚ) - 24 * 60 * 60) (now : ℚ)) = []
    · rw [if_pos h]
      have hlen := length_filterMap_isSome chains fun c =>
        latestWithin store c ((now : ℚ) - 24 * 60 * 60) (now : ℚ)
      rw [h] at hlen
      exact hlen
    · rw [if_neg h]
      exact length_filterMap_isSome chains _
  · rw [getNetworkTps_eq]
    by_cases h : (chains.filterMap fun c =>
        latestWithin store c ((now : ℚ) - 24 * 60 * 60) (now : ℚ)) = []
    · rw [if_pos h, h]
      simp only [List.map_nil, List.sum_nil]
      norm_num [round2fixed]
    · rw [if_neg h]
  · intro m
    have hlw : latestWithin [⟨(1 : ℕ), (m : ℚ), none, 0⟩] 1
        ((m : ℚ) - 24 * 60 * 60) (m : ℚ) = some ⟨1, (m : ℚ), none, 0⟩ := by
      rw [latestWithin, pickLatest]
      have c1 : (m : ℚ) - 24 * 60 * 60 ≤ (m : ℚ) := by linarith
      simp [List.filter, c1]
    rw [getNetworkTps_eq]
    rw [if_neg (by simp [List.filterMap_cons, hlw])]
    simp only [List.filterMap_cons, List.filterMap_nil, hlw, List.map_cons, List.map_nil,
      List.sum_cons, List.sum_nil, Option.getD_none, List.length_cons, List.length_nil,
      listMax, List.foldl_nil]
    have : round2fixed (0 + 0) = 0 := by norm_num [round2fixed]
    rw [this]
    norm_num

/-! ### Network history (claim C4) -/

lemma contains_iff (l : List ℕ) (a : ℕ) : l.contains a = true ↔ a ∈ l :=
  List.elem_iff

lemma mem_sortedInsert (x y : ℚ) (l : List ℚ) :
    y ∈ sortedInsert x l ↔ y = x ∨ y ∈ l := by
  induction l with
  | nil => simp [sortedInsert]
  | cons z zs ih =>
    rw [sortedInsert]
    split
    · simp
    · rw [List.mem_cons, ih, List.mem_cons]
      tauto

lemma sortedInsert_perm (x : ℚ) (l : List ℚ) :
    List.Perm (sortedInsert x l) (x :: l) := by
  induction l with
  | nil => simp [sortedInsert]
  | cons z zs ih =>
    rw [sortedInsert]
    split
    · exact List.Perm.refl _
    · exact (List.Perm.cons z ih).trans (List.Perm.swap x z zs)

lemma sortAsc_perm (l : List ℚ) : List.Perm (sortAsc l) l := by
  induction l with
  | nil => simp [sortAsc]
  | cons x xs ih =>
    rw [sortAsc, List.foldr_cons]
    exact (sortedInsert_perm x _).trans (List.Perm.cons x ih)

lemma sortedInsert_sorted (x : ℚ) (l : List ℚ) (h : List.Pairwise (· ≤ ·) l) :
    List.Pairwise (· ≤ ·) (sortedInsert x l) := by
  induction l with
  | nil => simp [sortedInsert]
  | cons z zs ih =>
    rcases List.pairwise_cons.mp h with ⟨hz, hzs⟩
    rw [sortedInsert]
    split
    · rename_i hle
      refine List.pairwise_cons.mpr ⟨?_, h⟩
      intro b hb
      rcases List.mem_cons.mp hb with hb | hb
      · exact hb ▸ hle
      · exact le_trans hle (hz b hb)
    · rename_i hgt
      refine List.pairwise_cons.mpr ⟨?_, ih hzs⟩
      intro b hb
      rcases (mem_sortedInsert x b zs).mp hb with hb | hb
      · exact hb ▸ le_of_not_le hgt
      · exact hz b hb

lemma sortAsc_sorted (l : List ℚ) : List.Pairwise (· ≤ ·) (sortAsc l) := by
  induction l with
  | nil => exact List.Pairwise.nil
  | cons x xs ih =>
    rw [sortAsc, List.foldr_cons]
    exact sortedInsert_sorted x _ ih

lemma sortAsc_strict_sorted (l : List ℚ) (h : l.Nodup) :
    List.Pairwise (· < ·) (sortAsc l) := by
  have hnd : (sortAsc l).Nodup := ((sortAsc_perm l).nodup_iff).mpr h
  have := (sortAsc_sorted l).and hnd
  exact this.imp fun hab => lt_of_le_of_ne hab.1 hab.2

lemma mem_matchingRecords (chains : List ℕ) (store : List TpsRecord) (cutoff : ℚ)
    (r : TpsRecord) :
    r ∈ matchingRecords chains store cutoff ↔
      r ∈ store ∧ r.chainId ∈ chains ∧ cutoff ≤ r.timestamp := by
  rw [matchingRecords, List.mem_filter]
  simp only [Bool.and_eq_true, decide_eq_true_eq, contains_iff]

lemma matchingRecords_filter_eq (chains : List ℕ) (store : List TpsRecord)
    (cutoff t : ℚ) :
    (matchingRecords chains store cutoff).filter (fun r => decide (r.timestamp = t)) =
      store.filter fun r =>
        decide (r.chainId ∈ chains ∧ cutoff ≤ r.timestamp ∧ r.timestamp = t) := by
  rw [matchingRecords, List.filter_filter]
  apply List.filter_congr
  intro r _
  by_cases h1 : r.chainId ∈ chains <;> by_cases h2 : cutoff ≤ r.timestamp <;>
    by_cases h3 : r.timestamp = t <;>
    simp [h1, h2, h3, contains_iff, List.contains_eq_any_beq]

lemma map_timestamp_of (f : ℚ → NetworkHistoryPoint)
    (hf : ∀ t, (f t).timestamp = t) :
    ∀ G : List ℚ, (G.map f).map (fun e => e.timestamp) = G := by
  intro G
  rw [List.map_map]
  have hcomp : ((fun e : NetworkHistoryPoint => e.timestamp) ∘ f) = fun t => t := funext hf
  rw [hcomp]
  exact List.map_id G

/-- Claim C4: the network history groups the records of the known chains
with `timestamp ≥ now - days*86400` by exact raw timestamp; each group
reports the 2-decimal rounding of the sum of the group's values and the
number of records in the group, carries an ISO-8601 date derived from the
timestamp, and the groups are sorted by timestamp ascending; two chains
reporting 5 and 7 at one identical timestamp `t` yield the single group
`{timestamp: t, totalTps: 12, chainCount: 2}`. -/
theorem getNetworkTpsHistory_spec (chains : List ℕ) (store : List TpsRecord)
    (now : ℤ) (days : ℕ) :
    List.Pairwise (· < ·)
      ((getNetworkTpsHistory chains store now days).map fun e => e.timestamp) ∧
    (∀ t : ℚ,
      (t ∈ (getNetworkTpsHistory chains store now days).map fun e => e.timestamp) ↔
      ∃ r ∈ store, r.chainId ∈ chains ∧ (now : ℚ) - days * 86400 ≤ r.timestamp ∧
        r.timestamp = t) ∧
    (∀ e ∈ getNetworkTpsHistory chains store now days,
      e.totalTps = round2bank (((store.filter fun r =>
          decide (r.chainId ∈ chains ∧ (now : ℚ) - days * 86400 ≤ r.timestamp ∧
            r.timestamp = e.timestamp)).map fun r => r.value.getD 0).sum) ∧
      e.chainCount = (store.filter fun r =>
          decide (r.chainId ∈ chains ∧ (now : ℚ) - days * 86400 ≤ r.timestamp ∧
            r.timestamp = e.timestamp)).length ∧
      e.date = isoDate e.timestamp) ∧
    (∀ (c1 c2 : ℕ) (t : ℚ) (m lu lu2 : ℤ), ((m : ℚ) - 7 * 86400 ≤ t) →
      getNetworkTpsHistory [c1, c2] [⟨c1, t, some 5, lu⟩, ⟨c2, t, some 7, lu2⟩] m 7 =
        [⟨t, 12, 2, isoDate t⟩]) := by
  have hnum : ((now : ℚ) - days * 86400) = ((now : ℚ) - days * 24 * 60 * 60) := by
    norm_num
    ring
  rw [hnum]
  have hmapts : (getNetworkTpsHistory chains store now days).map (fun e => e.timestamp) =
      sortAsc ((matchingRecords chains store
        ((now : ℚ) - days * 24 * 60 * 60)).map fun r => r.timestamp).dedup := by
    simp only [getNetworkTpsHistory]
    exact map_timestamp_of _ (fun t => rfl) _
  refine ⟨?_, ?_, ?_, ?_⟩
  · rw [hmapts]
    exact sortAsc_strict_sorted _ (List.nodup_dedup _)
  · intro t
    rw [hmapts]
    rw [(sortAsc_perm _).mem_iff, List.mem_dedup, List.mem_map]
    constructor
    · rintro ⟨r, hr, hrt⟩
      rcases (mem_matchingRecords _ _ _ r).mp hr with ⟨h1, h2, h3⟩
      exact ⟨r, h1, h2, h3, hrt⟩
    · rintro ⟨r, h1, h2, h3, hrt⟩
      exact ⟨r, (mem_matchingRecords _ _ _ r).mpr ⟨h1, h2, h3⟩, hrt⟩
  · intro e he
    simp only [getNetworkTpsHistory, List.mem_map] at he
    rcases he with ⟨t, ht, rfl⟩
    refine ⟨?_, ?_, rfl⟩
    · dsimp only
      rw [← matchingRecords_filter_eq]
    · dsimp only
      rw [← matchingRecords_filter_eq]
  · intro c1 c2 t m lu lu2 hcut
    have hcut2 : ((m : ℚ) - ((7 : ℕ) : ℚ) * 24 * 60 * 60) ≤ t := by push_cast; linarith
    have hc1 : List.contains [c1, c2] c1 = true := (contains_iff _ _).mpr (by simp)
    have hc2 : List.contains [c1, c2] c2 = true := (contains_iff _ _).mpr (by simp)
    have hmatch : matchingRecords [c1, c2]
        [⟨c1, t, some 5, lu⟩, ⟨c2, t, some 7, lu2⟩]
        ((m : ℚ) - ((7 : ℕ) : ℚ) * 24 * 60 * 60) =
        [⟨c1, t, some 5, lu⟩, ⟨c2, t, some 7, lu2⟩] := by
      rw [matchingRecords]
      rw [List.filter_cons_of_pos
          (by simp only [Bool.and_eq_true, decide_eq_true_eq]; exact ⟨hc1, hcut2⟩),
        List.filter_cons_of_pos
          (by simp only [Bool.and_eq_true, decide_eq_true_eq]; exact ⟨hc2, hcut2⟩),
        List.filter_nil]
    have hded : (([t, t] : List ℚ)).dedup = [t] := by
      rw [List.dedup_cons_of_mem (List.mem_singleton_self t),
        List.dedup_cons_of_not_mem (List.not_mem_nil t), List.dedup_nil]
    simp only [getNetworkTpsHistory, hmatch, List.map_cons, List.map_nil, hded]
    have hsort : sortAsc [t] = [t] := rfl
    rw [hsort]
    simp only [List.map_cons, List.map_nil]
    rw [List.filter_cons_of_pos (by simp), List.filter_cons_of_pos (by simp),
      List.filter_nil]
    simp only [List.map_cons, List.map_nil, List.sum_cons, List.sum_nil,
      Option.getD_some, List.length_cons, List.length_nil]
    have hround : round2bank (5 + (7 + 0)) = 12 := by
      rw [round2bank]
      norm_num
    rw [hround]

/-- Witness for `getNetworkTpsHistory_spec`: two chains reporting values 5
and 7 at the identical timestamp 500 with `now = 1000` and `days = 7`
yield the single group with `totalTps = 12` and `chainCount = 2`. -/
theorem getNetworkTpsHistory_spec_witness :
    getNetworkTpsHistory [1, 2] [⟨1, 500, some 5, 0⟩, ⟨2, 500, some 7, 0⟩] 1000 7 =
      [⟨500, 12, 2, isoDate 500⟩] :=
  (getNetworkTpsHistory_spec [] [] 0 0).2.2.2 1 2 500 1000 0 0 (by norm_num)

end L1Beat
